import Mathlib

/-!
Verification of the transcript-search and conversation-store core of the
Teachforall-Insights server (`server.js`) against its specification.

The JavaScript source is shallowly embedded: strings are Lean `String`s
(operated on mostly through their `List Char` data, mirroring JS index-based
string operations), JS numbers holding epoch milliseconds are `Int`, and the
JS `Date.UTC` / `Date#toISOString` builtins are modelled by the standard
civil-calendar arithmetic they are specified with (ECMA-262 MakeDay/MakeTime,
here via the Hinnant days-from-civil formulas, written so that day overflow
normalizes linearly exactly as `Date.UTC` does).  Fallible I/O (file reads,
the Gemini call) is passed in as `Except`-valued oracles.
-/

namespace TFA

/-! ### Character and string utilities (JS regex classes, toLowerCase, trim) -/

/-- JS whitespace class `\s`, restricted to the code points that occur in this
system (ASCII whitespace plus NBSP). -/
def wsChar (c : Char) : Bool :=
  c = ' ' || c = '\t' || c = '\n' || c = '\r' || c = '\x0b' || c = '\x0c' || c = ' '

/-- Separator class `[,\s]` used by the keyword splitter in
`findTranscriptsLocal` / `findTranscriptsGDrive`. -/
def sepChar (c : Char) : Bool :=
  c = ',' || wsChar c

/-- JS `String#toLowerCase` on one character (ASCII range, which is all the
comparisons in the source exercise). -/
def lcChar (c : Char) : Char :=
  if 'A' ≤ c ∧ c ≤ 'Z' then Char.ofNat (c.toNat + 32) else c

/-- JS `\w` word-character class `[A-Za-z0-9_]` (used for the `\b` boundary in
`NAME_TIME_REGEX`). -/
def wordChar (c : Char) : Bool :=
  ('a' ≤ c && c ≤ 'z') || ('A' ≤ c && c ≤ 'Z') || ('0' ≤ c && c ≤ '9') || c = '_'

/-- JS `String#trim` on the character list. -/
def trimList (l : List Char) : List Char :=
  ((l.dropWhile wsChar).reverse.dropWhile wsChar).reverse

/-- JS `String#trim`. -/
def jsTrim (s : String) : String :=
  ⟨trimList s.toList⟩

/-- `String#toLowerCase`, as a character list (the form `norm` is consumed in:
`h.indexOf(w)`). -/
def normL (s : String) : List Char :=
  s.toList.map lcChar

/-- `norm(s)` from server.js: `String(s || "").toLowerCase()`. -/
def norm (s : String) : String :=
  ⟨normL s⟩

/-- Is `w` a prefix of `l`? (Exact `Char` equality, as JS `indexOf` uses.) -/
def prefixOfB : List Char → List Char → Bool
  | [], _ => true
  | _ :: _, [] => false
  | a :: as, b :: bs => a = b && prefixOfB as bs

/-- `hay.indexOf(w) >= 0`: does `w` occur as a contiguous substring of `hay`? -/
def containsSub (hay w : List Char) : Bool :=
  prefixOfB w hay ||
    match hay with
    | [] => false
    | _ :: t => containsSub t w

/-- Worker for `collapseWs`; the flag records whether the previous character
was whitespace (so a whole run emits a single space, as `replace(/\s+/g, " ")`
does). -/
def collapseWsAux : Bool → List Char → List Char
  | _, [] => []
  | prevWs, c :: rest =>
    if wsChar c then
      if prevWs then collapseWsAux true rest
      else ' ' :: collapseWsAux true rest
    else c :: collapseWsAux false rest

/-- JS `replace(/\s+/g, " ")`. -/
def collapseWs (l : List Char) : List Char :=
  collapseWsAux false l

/-- Worker for `splitTokens`: accumulates the current token in reverse. -/
def splitToksAux : List Char → List Char → List (List Char)
  | cur, [] => if cur.isEmpty then [] else [cur.reverse]
  | cur, c :: rest =>
    if sepChar c then
      if cur.isEmpty then splitToksAux [] rest
      else cur.reverse :: splitToksAux [] rest
    else splitToksAux (c :: cur) rest

/-- `String(p.keywords || "").split(/[,\s]+/).map(s => s.trim()).filter(Boolean)`:
the maximal runs of non-separator characters (trim is a no-op on such runs and
`filter(Boolean)` drops the empty fragments the regex split produces at the
ends). -/
def splitTokens (l : List Char) : List (List Char) :=
  splitToksAux [] l

/-- The full keyword pipeline of `findTranscriptsLocal` / `findTranscriptsGDrive`:
split on `[,\s]+`, drop empties, lower-case. -/
def splitKeywords (s : String) : List (List Char) :=
  (splitTokens s.toList).map (List.map lcChar)

/-- `anyKeywordHit(haystack, kwsLower)` from server.js. -/
def anyKeywordHit (haystack : String) (kwsLower : List (List Char)) : Bool :=
  if kwsLower.isEmpty then true
  else kwsLower.any fun w => containsSub (normL haystack) w

/-- `l₂` ends with `l₁`. -/
def suffixOfB (l₁ l₂ : List Char) : Bool :=
  prefixOfB l₁.reverse l₂.reverse

/-- `hasAllowedTranscriptExt(name)` from server.js. -/
def hasAllowedTranscriptExt (name : String) : Bool :=
  let n := normL name
  suffixOfB ".txt".toList n || suffixOfB ".vtt".toList n || suffixOfB ".srt".toList n

/-- `makePreview(text, maxLen)` from server.js:
`(text || "").replace(/\s+/g, " ").trim()`, then clip with a one-character
ellipsis. -/
def makePreview (text : String) (maxLen : Nat) : String :=
  if (trimList (collapseWs text.toList)).length > maxLen then
    ⟨(trimList (collapseWs text.toList)).take (maxLen - 1) ++ ['…']⟩
  else ⟨trimList (collapseWs text.toList)⟩

/-- `clip(s, n)` from server.js. -/
def clip (s : String) (n : Nat) : String :=
  if s.length > n then ⟨s.toList.take (n - 1) ++ ['…']⟩ else s

/-! ### Date arithmetic: the `Date.UTC` / `Date.parse` model

`Date.UTC(y, mo, d, hh, mm, ss)` is specified by ECMA-262 MakeDay/MakeTime:
month overflow is carried into the year, and day/time overflow is linear in
milliseconds.  `daysFromCivilYM` is the epoch day of the first of a month
(Hinnant's days_from_civil at `d = 1`); the day-of-month then enters linearly,
which is exactly the normalization `Date.UTC` performs. -/

/-- Epoch day number (days since 1970-01-01) of the first day of month `m`
(`1 ≤ m ≤ 12`) in year `y`. -/
def daysFromCivilYM (y m : Int) : Int :=
  let yy := if m ≤ 2 then y - 1 else y
  let era := Int.fdiv yy 400
  let yoe := yy - era * 400
  let mp := Int.emod (m + 9) 12
  let doy := (153 * mp + 2) / 5
  era * 146097 + yoe * 365 + yoe / 4 - yoe / 100 + doy - 719468

/-- `Date.UTC(y, mo0, d, hh, mi, ss)` in milliseconds, with `mo0` the 0-based
month as in JS; overflowing months carry into the year and overflowing
days/times are linear, as ECMA-262 prescribes. -/
def dateUTCms (y mo0 d hh mi ss : Int) : Int :=
  let y2 := y + Int.fdiv mo0 12
  let m := Int.emod mo0 12 + 1
  86400000 * (daysFromCivilYM y2 m + (d - 1)) + 3600000 * hh + 60000 * mi + 1000 * ss

/-- Numeric value of a digit character. -/
def digitVal (c : Char) : Int :=
  Int.ofNat (c.toNat - 48)

/-- Two-digit numeral value. -/
def dv2 (a b : Char) : Int :=
  10 * digitVal a + digitVal b

/-- Four-digit numeral value. -/
def dv4 (a b c d : Char) : Int :=
  1000 * digitVal a + 100 * digitVal b + 10 * digitVal c + digitVal d

/-- The `isEndExclusive ? 1 : 0` day offset of `parseDateInput`. -/
def endOff : Bool → Int
  | true => 1
  | false => 0

/-- The body of `parseDateInput` over the trimmed character list.  Both
accepted shapes — `MM/DD/YYYY` and `YYYY-MM-DD` — are exactly ten characters,
anchored regexes over the whole trimmed string; the source tries the slash
form first. -/
def parseDateList (l : List Char) (off : Int) : Option Int :=
  match l with
  | [c0, c1, c2, c3, c4, c5, c6, c7, c8, c9] =>
    if c2 = '/' ∧ c5 = '/' ∧ c0.isDigit ∧ c1.isDigit ∧ c3.isDigit ∧ c4.isDigit ∧
        c6.isDigit ∧ c7.isDigit ∧ c8.isDigit ∧ c9.isDigit then
      some (dateUTCms (dv4 c6 c7 c8 c9) (dv2 c0 c1 - 1) (dv2 c3 c4 + off) 0 0 0)
    else if c4 = '-' ∧ c7 = '-' ∧ c0.isDigit ∧ c1.isDigit ∧ c2.isDigit ∧ c3.isDigit ∧
        c5.isDigit ∧ c6.isDigit ∧ c8.isDigit ∧ c9.isDigit then
      some (dateUTCms (dv4 c0 c1 c2 c3) (dv2 c5 c6 - 1) (dv2 c8 c9 + off) 0 0 0)
    else none
  | _ => none

/-- `parseDateInput(s, isEndExclusive)` from server.js, returning the epoch
milliseconds of the resulting UTC instant (the source returns the same instant
as an ISO string and the callers immediately `Date.parse` it back). -/
def parseDateInput (s : String) (isEndExclusive : Bool) : Option Int :=
  parseDateList (jsTrim s).toList (endOff isEndExclusive)

/-- `NAME_TIME_REGEX` / `parseNameTimestampMs(name)` from server.js: four year
digits, a dash-or-slash separator, two month digits, dash-or-slash, two day
digits, a space-underscore-or-T separator, then `HH`, `MM`, `SS` pairs joined
by dot-or-colon, followed by a `\b` word boundary — all anchored (`^`) at the
start of the name; on a match, `Date.UTC` of the fields. -/
def nameTsCond (y1 y2 y3 y4 s1 m1 m2 s2 d1 d2 s3 h1 h2 s4 n1 n2 s5 o1 o2 : Char)
    (rest : List Char) : Bool :=
  y1.isDigit && y2.isDigit && y3.isDigit && y4.isDigit &&
    m1.isDigit && m2.isDigit && d1.isDigit && d2.isDigit &&
    h1.isDigit && h2.isDigit && n1.isDigit && n2.isDigit &&
    o1.isDigit && o2.isDigit &&
    (s1 = '-' || s1 = '/') && (s2 = '-' || s2 = '/') &&
    (s3 = ' ' || s3 = '_' || s3 = 'T') &&
    (s4 = '.' || s4 = ':') && (s5 = '.' || s5 = ':') &&
    (rest.isEmpty || !wordChar (rest.headD ' '))

/-- `parseNameTimestampMs(name)` from server.js; `nameTsCond` above holds the
character-class tests of `NAME_TIME_REGEX`. -/
def parseNameTimestampMs (name : String) : Option Int :=
  match name.toList with
  | y1 :: y2 :: y3 :: y4 :: s1 :: m1 :: m2 :: s2 :: d1 :: d2 :: s3 ::
      h1 :: h2 :: s4 :: n1 :: n2 :: s5 :: o1 :: o2 :: rest =>
    if nameTsCond y1 y2 y3 y4 s1 m1 m2 s2 d1 d2 s3 h1 h2 s4 n1 n2 s5 o1 o2 rest = true then
      some (dateUTCms (dv4 y1 y2 y3 y4) (dv2 m1 m2 - 1) (dv2 d1 d2)
        (dv2 h1 h2) (dv2 n1 n2) (dv2 o1 o2))
    else none
  | _ => none

/-- The timestamp pattern of `NAME_TIME_REGEX` occurs at the very start of the
name: the name decomposes into nineteen leading characters satisfying the
regex character classes (plus the trailing word boundary). -/
def nameTsAtStart (name : String) : Prop :=
  ∃ (y1 y2 y3 y4 s1 m1 m2 s2 d1 d2 s3 h1 h2 s4 n1 n2 s5 o1 o2 : Char)
    (rest : List Char),
    name.toList = y1 :: y2 :: y3 :: y4 :: s1 :: m1 :: m2 :: s2 :: d1 :: d2 :: s3 ::
      h1 :: h2 :: s4 :: n1 :: n2 :: s5 :: o1 :: o2 :: rest ∧
    nameTsCond y1 y2 y3 y4 s1 m1 m2 s2 d1 d2 s3 h1 h2 s4 n1 n2 s5 o1 o2 rest = true

/-- Inverse of the epoch-day computation (Hinnant civil_from_days), used by the
`Date#toISOString` model. -/
def civilFromDays (z0 : Int) : Int × Int × Int :=
  let z := z0 + 719468
  let era := Int.fdiv z 146097
  let doe := z - era * 146097
  let yoe := (doe - doe / 1460 + doe / 36524 - doe / 146096) / 365
  let y := yoe + era * 400
  let doy := doe - (365 * yoe + yoe / 4 - yoe / 100)
  let mp := (5 * doy + 2) / 153
  let d := doy - (153 * mp + 2) / 5 + 1
  let m := mp + (if mp < 10 then 3 else -9)
  (if m ≤ 2 then y + 1 else y, m, d)

/-- One digit character. -/
def digitChar (n : Nat) : Char :=
  Char.ofNat (48 + n % 10)

/-- Zero-padded numerals for the ISO rendering. -/
def pad2 (n : Int) : List Char :=
  [digitChar (n.toNat / 10), digitChar n.toNat]

/-- Zero-padded 3-digit numeral. -/
def pad3 (n : Int) : List Char :=
  [digitChar (n.toNat / 100), digitChar (n.toNat / 10), digitChar n.toNat]

/-- Zero-padded 4-digit numeral. -/
def pad4 (n : Int) : List Char :=
  [digitChar (n.toNat / 1000), digitChar (n.toNat / 100), digitChar (n.toNat / 10),
    digitChar n.toNat]

/-- `new Date(ms).toISOString()` for the four-digit-year range the system
exercises. -/
def toISOString (ms : Int) : String :=
  let day := Int.fdiv ms 86400000
  let rem := Int.emod ms 86400000
  let ymd := civilFromDays day
  ⟨pad4 ymd.1 ++ ['-'] ++ pad2 ymd.2.1 ++ ['-'] ++ pad2 ymd.2.2 ++ ['T'] ++
    pad2 (rem / 3600000) ++ [':'] ++ pad2 (rem / 60000 % 60) ++ [':'] ++
    pad2 (rem / 1000 % 60) ++ ['.'] ++ pad3 (rem % 1000) ++ ['Z']⟩

/-! ### Transcript search (findTranscriptsLocal / findTranscriptsGDrive) -/

/-- `MAX_CONTENT_CHECKS` from server.js. -/
def MAX_CONTENT_CHECKS : Nat := 200

/-- One search-result row as pushed by the search loops. -/
structure Item where
  id : String
  name : String
  mimeType : String
  modified : String
  link : String
  preview : String
deriving DecidableEq, Repr

/-- A local file as the scan sees it: `content = none` models a file whose
`fs.readFile` throws (the search swallows that and treats it as no match). -/
structure FsEntry where
  name : String
  mtimeMs : Int
  content : Option String
deriving DecidableEq, Repr

/-- A local directory tree under the transcripts folder. -/
inductive FsTree where
  | file : FsEntry → FsTree
  | dir : String → List FsTree → FsTree
deriving Repr

/-- The mutable state of one search request: the accumulated `results` array
and the `checks` content-read counter. -/
structure ScanState where
  results : List Item
  checks : Nat
deriving DecidableEq, Repr

/-- The per-request search parameters after preprocessing: lowered keyword
tokens, parsed date bounds in epoch ms, and the clamped limit. -/
structure SearchParams where
  kws : List (List Char)
  fromMs : Option Int
  toMs : Option Int
  limit : Nat
deriving DecidableEq, Repr

/-- The `from` side of the date filter: JS `if (fromMs && nameMs < fromMs)
continue` — note `fromMs = 0` is falsy and imposes no constraint. -/
def dateGuardFrom (fromMs : Option Int) (nameMs : Int) : Bool :=
  match fromMs with
  | none => false
  | some f => if f = 0 then false else decide (nameMs < f)

/-- The `to` side of the date filter: JS `if (toMs && nameMs >= toMs)
continue` — `toMs = 0` is falsy and imposes no constraint. -/
def dateGuardTo (toMs : Option Int) (nameMs : Int) : Bool :=
  match toMs with
  | none => false
  | some t => if t = 0 then false else decide (nameMs ≥ t)

/-- The effective timestamp of a local candidate:
`parseNameTimestampMs(item) || stats.mtime.getTime()` — a parsed value of `0`
is falsy and also falls back to the mtime. -/
def effNameMs (e : FsEntry) : Int :=
  match parseNameTimestampMs e.name with
  | some v => if v = 0 then e.mtimeMs else v
  | none => e.mtimeMs

/-- `path.join(folderPath, item)` for the paths this system builds. -/
def joinPath (dir name : String) : String :=
  dir ++ "/" ++ name

/-- The result row pushed by `findTranscriptsLocal`. -/
def mkLocalItem (dir : String) (e : FsEntry) (nameMs : Int) (preview : String) : Item :=
  { id := joinPath dir e.name
    name := e.name
    mimeType := "text/plain"
    modified := toISOString nameMs
    link := "file://" ++ joinPath dir e.name
    preview := preview }

/-- The body of the `for` loop of `scanFolder` for one non-directory entry:
extension filter, date filter, filename keyword test, budgeted content scan,
and the conditional push.  (The enclosing loop has already checked
`results.length >= limit` before dispatching to this.) -/
def processFile (P : SearchParams) (dir : String) (st : ScanState) (e : FsEntry) :
    ScanState :=
  if !hasAllowedTranscriptExt e.name then st
  else
    let nameMs := effNameMs e
    if dateGuardFrom P.fromMs nameMs then st
    else if dateGuardTo P.toMs nameMs then st
    else
      let hit0 := if P.kws.isEmpty then true else anyKeywordHit e.name P.kws
      let step :
          Bool × String × Nat :=
        if !hit0 && !P.kws.isEmpty && decide (st.checks < MAX_CONTENT_CHECKS) then
          match e.content with
          | some body =>
            (anyKeywordHit body P.kws,
              if anyKeywordHit body P.kws then makePreview body 500 else "",
              st.checks + 1)
          | none => (hit0, "", st.checks)
        else (hit0, "", st.checks)
      if step.1 then
        { results := st.results ++ [mkLocalItem dir e nameMs step.2.1], checks := step.2.2 }
      else
        { st with checks := step.2.2 }

/-- `scanFolder`'s loop over the entries of one directory, including the
early exit once `limit` results are accumulated and the depth-capped
recursion into subdirectories. -/
def scanList (P : SearchParams) (dir : String) (depth : Nat) (st : ScanState) :
    List FsTree → ScanState
  | [] => st
  | t :: rest =>
    if st.results.length ≥ P.limit then st
    else
      match t with
      | .file e => scanList P dir depth (processFile P dir st e) rest
      | .dir name children =>
        let st2 :=
          if depth + 1 > 3 ∨ st.results.length ≥ P.limit then st
          else scanList P (joinPath dir name) (depth + 1) st children
        scanList P dir depth st2 rest
termination_by l => sizeOf l

/-- Descending order on the `modified` field — the comparator
`(a, b) => (b.modified || "").localeCompare(a.modified || "")` of the final
sort, read as lexicographic string comparison. -/
def modGE (a b : Item) : Prop :=
  b.modified ≤ a.modified

instance : DecidableRel modGE := fun a b =>
  inferInstanceAs (Decidable (b.modified ≤ a.modified))

instance : IsTotal Item modGE :=
  ⟨fun a b => le_total b.modified a.modified⟩

instance : IsTrans Item modGE :=
  ⟨fun _ _ _ hab hbc => le_trans hbc hab⟩

/-- `findTranscriptsLocal(p)` from server.js, for a present transcripts folder
modelled by `roots`; returns the `results` array of the `ok: true` response. -/
def findTranscriptsLocal (keywords fromS toS : String) (limitParam : Option Nat)
    (rootPath : String) (roots : List FsTree) : List Item :=
  let limit := min (limitParam.getD 10) 50
  let P : SearchParams :=
    { kws := splitKeywords keywords
      fromMs := parseDateInput fromS false
      toMs := parseDateInput toS true
      limit := limit }
  let st0 : ScanState := { results := [], checks := 0 }
  let st :=
    if 0 > 3 ∨ st0.results.length ≥ limit then st0
    else scanList P rootPath 0 st0 roots
  (List.insertionSort modGE st.results).take limit

/-- A Google Drive file as the search sees it.  `modifiedTime = none` models
an absent field; `content = none` a read that throws.  `Date.parse` on the
drive-reported time string and `Date.now()` are abstracted as the `dateParse`
and `nowMs` arguments of the search. -/
structure GFile where
  id : String
  name : String
  mimeType : String
  modifiedTime : Option String
  content : Option String
deriving DecidableEq, Repr

/-- The drive folder tree (`gdriveListFiles` pagination already concatenates a
folder listing in order, so a folder is just its ordered children). -/
inductive GTree where
  | file : GFile → GTree
  | folder : String → List GTree → GTree
deriving Repr

/-- `gdriveListAllFiles(folderId, depth)`: depth-capped depth-first flattening
of the folder tree, sub-folder contents spliced in listing order. -/
def gdriveListAll (depth : Nat) : List GTree → List GFile
  | [] => []
  | t :: rest =>
    match t with
    | .file f => f :: gdriveListAll depth rest
    | .folder _ ch =>
      (if depth + 1 > 3 then [] else gdriveListAll (depth + 1) ch) ++
        gdriveListAll depth rest
termination_by l => sizeOf l

/-- The transcript filter of `findTranscriptsGDrive`. -/
def isGDriveTranscript (f : GFile) : Bool :=
  let n := normL f.name
  suffixOfB ".txt".toList n || suffixOfB ".vtt".toList n || suffixOfB ".srt".toList n ||
    f.mimeType = "application/vnd.google-apps.document"

/-- Effective timestamp of a drive candidate:
`parseNameTimestampMs(f.name) || (f.modifiedTime ? Date.parse(f.modifiedTime)
: Date.now())`, with the same falsy-zero behavior as the local variant. -/
def effNameMsG (f : GFile) (dateParse : String → Int) (nowMs : Int) : Int :=
  let fallback :=
    match f.modifiedTime with
    | some s => if s = "" then nowMs else dateParse s
    | none => nowMs
  match parseNameTimestampMs f.name with
  | some v => if v = 0 then fallback else v
  | none => fallback

/-- The result row pushed by `findTranscriptsGDrive`. -/
def mkGDriveItem (f : GFile) (nameMs : Int) (preview : String) : Item :=
  { id := "gdrive:" ++ f.id
    name := f.name
    mimeType := if f.mimeType = "" then "text/plain" else f.mimeType
    modified :=
      match f.modifiedTime with
      | some s => if s = "" then toISOString nameMs else s
      | none => toISOString nameMs
    link := "https://drive.google.com/file/d/" ++ f.id ++ "/view"
    preview := preview }

/-- Loop body of `findTranscriptsGDrive` for one candidate file. -/
def processGFile (P : SearchParams) (dateParse : String → Int) (nowMs : Int)
    (st : ScanState) (f : GFile) : ScanState :=
  let nameMs := effNameMsG f dateParse nowMs
  if dateGuardFrom P.fromMs nameMs then st
  else if dateGuardTo P.toMs nameMs then st
  else
    let hit0 := if P.kws.isEmpty then true else anyKeywordHit f.name P.kws
    let step : Bool × String × Nat :=
      if !hit0 && !P.kws.isEmpty && decide (st.checks < MAX_CONTENT_CHECKS) then
        match f.content with
        | some body =>
          (anyKeywordHit body P.kws,
            if anyKeywordHit body P.kws then makePreview body 500 else "",
            st.checks + 1)
        | none => (hit0, "", st.checks)
      else (hit0, "", st.checks)
    if step.1 then
      { results := st.results ++ [mkGDriveItem f nameMs step.2.1], checks := step.2.2 }
    else
      { st with checks := step.2.2 }

/-- The `for (const f of transcriptFiles)` loop with its early exit. -/
def gScanLoop (P : SearchParams) (dateParse : String → Int) (nowMs : Int)
    (st : ScanState) : List GFile → ScanState
  | [] => st
  | f :: rest =>
    if st.results.length ≥ P.limit then st
    else gScanLoop P dateParse nowMs (processGFile P dateParse nowMs st f) rest

/-- `findTranscriptsGDrive(p)` from server.js (success path), over the drive
tree `roots`. -/
def findTranscriptsGDrive (keywords fromS toS : String) (limitParam : Option Nat)
    (roots : List GTree) (dateParse : String → Int) (nowMs : Int) : List Item :=
  let limit := min (limitParam.getD 10) 50
  let P : SearchParams :=
    { kws := splitKeywords keywords
      fromMs := parseDateInput fromS false
      toMs := parseDateInput toS true
      limit := limit }
  let transcriptFiles := (gdriveListAll 0 roots).filter isGDriveTranscript
  let st := gScanLoop P dateParse nowMs { results := [], checks := 0 } transcriptFiles
  (List.insertionSort modGE st.results).take limit

/-! ### Conversation stores and history trimming -/

/-- `MAX_CONVERSATION_HISTORY` from server.js. -/
def MAX_CONVERSATION_HISTORY : Nat := 20

/-- `MAX_TRANSCRIPT_CHARS` from server.js. -/
def MAX_TRANSCRIPT_CHARS : Nat := 120000

/-- `PREVIEW_LEN` from server.js. -/
def PREVIEW_LEN : Nat := 700

/-- `ANSWER_LEN` from server.js. -/
def ANSWER_LEN : Nat := 1800

/-- One `{role, text}` message of a conversation history. -/
structure Turn where
  role : String
  text : String
deriving DecidableEq, Repr

/-- The push-both-turns-then-trim sequence shared by the `ask` handler and
`askTranscript`: `history.push(user); history.push(model); if (length >
MAX_CONVERSATION_HISTORY * 2) history = history.slice(-MAX_CONVERSATION_HISTORY * 2)`. -/
def appendTrim (h : List Turn) (u m : Turn) : List Turn :=
  let h2 := h ++ [u, m]
  if h2.length > MAX_CONVERSATION_HISTORY * 2 then
    h2.drop (h2.length - MAX_CONVERSATION_HISTORY * 2)
  else h2

/-- General-mode session state: `{ history: [], context: null }`. -/
structure Conv where
  history : List Turn
  context : Option String
deriving DecidableEq, Repr

/-- Transcript-mode session state: `{ history: [], transcriptId: null }`. -/
structure TConv where
  history : List Turn
  transcriptId : Option String
deriving DecidableEq, Repr

/-- The state `getConversation` creates for an unseen session id. -/
def freshConv : Conv := { history := [], context := none }

/-- The state `getTranscriptConversation` creates for an unseen session id. -/
def freshTConv : TConv := { history := [], transcriptId := none }

/-- `getConversation(sessionId)`: lazily create-and-store, modelling the `Map`
as a function from session ids. -/
def getConversation (m : String → Option Conv) (sid : String) :
    Conv × (String → Option Conv) :=
  match m sid with
  | some c => (c, m)
  | none => (freshConv, fun k => if k = sid then some freshConv else m k)

/-- `clearConversation(sessionId)`: `conversations.delete(sessionId)`. -/
def clearConversation (m : String → Option Conv) (sid : String) :
    String → Option Conv :=
  fun k => if k = sid then none else m k

/-- `getTranscriptConversation(sessionId)`. -/
def getTranscriptConversation (m : String → Option TConv) (sid : String) :
    TConv × (String → Option TConv) :=
  match m sid with
  | some c => (c, m)
  | none => (freshTConv, fun k => if k = sid then some freshTConv else m k)

/-- `clearTranscriptConversation(sessionId)`. -/
def clearTranscriptConversation (m : String → Option TConv) (sid : String) :
    String → Option TConv :=
  fun k => if k = sid then none else m k

/-- One history-affecting step of an `ask`/`askTranscript` call: either a
context-invalidation reset (`history = []`) or the user/model pair append. -/
inductive HistOp where
  | reset : HistOp
  | append : Turn → Turn → HistOp
deriving Repr

/-- Apply one history operation. -/
def applyHistOp : HistOp → List Turn → List Turn
  | .reset, _ => []
  | .append u m, h => appendTrim h u m

/-- Run a call sequence over a session history. -/
def runHistOps : List HistOp → List Turn → List Turn
  | [], h => h
  | op :: rest, h => runHistOps rest (applyHistOp op h)

/-! ### Prompt assembly and the ask / askTranscript handlers -/

/-- Hexadecimal digit for the JSON control-character escape. -/
def hexDigit (n : Nat) : Char :=
  if n < 10 then digitChar n else Char.ofNat (87 + n % 16)

/-- `JSON.stringify` escaping of one string character. -/
def jsonEscChar (c : Char) : List Char :=
  if c = '"' then ['\\', '"']
  else if c = '\\' then ['\\', '\\']
  else if c = '\n' then ['\\', 'n']
  else if c = '\r' then ['\\', 'r']
  else if c = '\t' then ['\\', 't']
  else if c = '\x08' then ['\\', 'b']
  else if c = '\x0c' then ['\\', 'f']
  else if c.toNat < 32 then ['\\', 'u', '0', '0', hexDigit (c.toNat / 16), hexDigit (c.toNat % 16)]
  else [c]

/-- `JSON.stringify` of one string value. -/
def jsonStr (s : String) : String :=
  "\"" ++ ⟨s.toList.flatMap jsonEscChar⟩ ++ "\""

/-- The general-mode filter fingerprint:
`JSON.stringify({ from, to, type, countries, topic })`. -/
def mkFiltersKey (fromS toS typeS countriesS topicS : String) : String :=
  "\x7b\"from\":" ++ jsonStr fromS ++ ",\"to\":" ++ jsonStr toS ++
    ",\"type\":" ++ jsonStr typeS ++ ",\"countries\":" ++ jsonStr countriesS ++
    ",\"topic\":" ++ jsonStr topicS ++ "\x7d"

/-- One row of the data-store response, as consumed by `buildPromptSimple`. -/
structure Row where
  title : String
  date_iso : String
  countries : String
  summary_text : String
deriving DecidableEq, Repr

/-- One entry of the numbered items block. -/
def itemLine (i : Nat) (it : Row) : String :=
  "[" ++ toString (i + 1) ++ "] " ++ it.title ++ " — " ++ it.date_iso ++
    (if it.countries = "" then "" else " — " ++ it.countries) ++ "\n" ++
    clip ⟨collapseWs it.summary_text.toList⟩ PREVIEW_LEN

/-- The items block of `buildPromptSimple`. -/
def itemsBlock (items : List Row) : String :=
  String.intercalate "\n\n" (items.enum.map fun p => itemLine p.1 p.2)

/-- `buildPromptSimple(question, items, style)` from server.js. -/
def buildPromptSimple (question : String) (items : List Row) (style : String) : String :=
  let brevity :=
    if style = "short" then "Keep the answer concise (≤ 150 words)."
    else "Be reasonably thorough (≤ " ++ toString ANSWER_LEN ++ " characters)."
  String.intercalate "\n"
    [ "Answer the user\x27s question using ONLY the Items below."
    , ""
    , "FORMATTING RULES (MUST FOLLOW):"
    , "- Return clean HTML only (no Markdown fences or code blocks)"
    , "- ALWAYS use bullet points (<ul><li>) for lists of items or updates"
    , "- ALWAYS use <strong> tags to bold key names, dates, topics, and important terms"
    , "- Use <h4> for section headers when organizing multiple topics"
    , "- Keep paragraphs short and scannable"
    , "- When citing sources, use [n] format with the number in bold: <strong>[1]</strong>"
    , "- Example format:"
    , "  <h4>Topic Name</h4>"
    , "  <ul>"
    , "    <li><strong>Key Person</strong> discussed <strong>Important Topic</strong> on <strong>Date</strong> [1]</li>"
    , "  </ul>"
    , ""
    , "CONTEXT:"
    , "My name is Jeff Kern, and I am a Network Engagement Lead at Teach For All. Any references to \x27Jeff\x27 refer to me. I manage relationships with partner organizations in the European region (Ukraine, Latvia, Slovakia, Italy, Spain, Portugal) and early-stage partners (Albania, Moldova). I work with CEOs to deepen network engagement and foster collaborative learning."
    , ""
    , brevity
    , ""
    , "Question:", jsTrim question
    , ""
    , "Items:", itemsBlock items
    , ""
    , "Remember: Use bullets and bold formatting. Make it easy to scan." ]

/-- The follow-up prompt of the `ask` handler (no items block). -/
def followUpPromptAsk (question : String) : String :=
  "Follow-up question (use the same data context from our conversation):\n\n" ++
    question ++
    "\n\nRemember to return clean HTML and cite sources using [n] format if relevant."

/-- The conversation/prompt logic of one `ask` call, after the data-store rows
and the model answer are in hand: fingerprint comparison, context
invalidation, template selection, and the history append.  Returns the
outbound prompt, the `isNewConversation` flag of the response, and the updated
session. -/
def askStep (conv : Conv) (fromS toS typeS countriesS topicS question style : String)
    (rows : List Row) (answer : String) : String × Bool × Conv :=
  let filtersKey := mkFiltersKey fromS toS typeS countriesS topicS
  let needsNewContext : Bool :=
    decide (conv.context ≠ some filtersKey) || conv.history.isEmpty
  let pc : String × Conv :=
    if needsNewContext then
      (buildPromptSimple question rows style,
        { conv with context := some filtersKey, history := [] })
    else (followUpPromptAsk question, conv)
  let h2 := appendTrim pc.2.history ⟨"user", pc.1⟩ ⟨"model", answer⟩
  (pc.1, needsNewContext, { pc.2 with history := h2 })

/-- The structured JSON value `askTranscript` returns. -/
structure ATResult where
  ok : Bool
  error : Option String
  answer : Option String
  conversationLength : Option Nat
  isNewConversation : Option Bool
deriving DecidableEq, Repr

/-- Outcome of an `askTranscript` call: a returned value, or an exception that
propagates to the route-level catch. -/
inductive ATOut where
  | ret : ATResult → ATOut
  | thrown : String → ATOut
deriving DecidableEq, Repr

/-- `s.startsWith(pre)`. -/
def strStartsWith (s pre : String) : Bool :=
  prefixOfB pre.toList s.toList

/-- The transcript read with its backend dispatch:
`id.startsWith('gdrive:') ? gdriveReadFile(id.replace('gdrive:', '')) :
fs.readFile(id, 'utf8')`. -/
def readTranscriptRaw (id : String) (readFs readGd : String → Except String String) :
    Except String String :=
  if strStartsWith id "gdrive:" then readGd ⟨id.toList.drop 7⟩ else readFs id

/-- `raw.replace(/\r/g, "")`. -/
def removeCR (s : String) : String :=
  ⟨s.toList.filter fun c => !(c = '\r')⟩

/-- The first-turn transcript prompt (full context with the transcript text). -/
def askTranscriptFirstPrompt (q truncatedText : String) : String :=
  String.intercalate "\n"
    [ "You answer questions about a meeting transcript."
    , ""
    , "FORMATTING RULES (MUST FOLLOW):"
    , "- Return clean HTML only (no Markdown fences or code blocks)"
    , "- ALWAYS use bullet points (<ul><li>) for lists"
    , "- ALWAYS use <strong> tags to bold key names, dates, topics, and important terms"
    , "- Use <h4> for section headers when organizing multiple topics"
    , "- Keep paragraphs short and scannable"
    , "- Example format:"
    , "  <h4>Topic Name</h4>"
    , "  <ul>"
    , "    <li><strong>Person Name</strong> discussed <strong>Topic</strong></li>"
    , "  </ul>"
    , ""
    , "If not clearly in the transcript, say so briefly."
    , ""
    , "CONTEXT: My name is Jeff Kern, Network Engagement Lead at Teach For All. I manage European region partners (Ukraine, Latvia, Slovakia, Italy, Spain, Portugal) and early-stage partners (Albania, Moldova)."
    , ""
    , "Question:", q
    , ""
    , "Transcript:", "\"\"\"", truncatedText, "\"\"\""
    , ""
    , "Remember: Use bullets and bold formatting. Make it easy to scan." ]

/-- The follow-up transcript prompt (question only). -/
def askTranscriptFollowUpPrompt (q : String) : String :=
  "Follow-up question about the same transcript:\n\n" ++ q ++
    "\n\nRemember: Return clean HTML with bullets and bold formatting. Make it easy to scan."

/-- `askTranscript(p)` from server.js, with the file reads and the Gemini call
passed in as oracles.  The returned `TConv` is the session state after the
call (mutations made before a thrown Gemini error persist, as they do with the
in-place mutation in the source). -/
def askTranscript (pid pquestion : String) (conv : TConv)
    (readFs readGd : String → Except String String)
    (gem : List Turn → String → Except String String) : ATOut × TConv :=
  let id := jsTrim pid
  let q := jsTrim pquestion
  if id = "" then
    (.ret { ok := false, error := some "Missing transcript id", answer := none,
            conversationLength := none, isNewConversation := none }, conv)
  else if q = "" then
    (.ret { ok := false, error := some "Missing question", answer := none,
            conversationLength := none, isNewConversation := none }, conv)
  else
    let isNewTranscript : Bool := decide (conv.transcriptId ≠ some id)
    match readTranscriptRaw id readFs readGd with
    | .error e =>
      (.ret { ok := false, error := some ("Failed to read transcript: " ++ e),
              answer := none, conversationLength := none, isNewConversation := none },
        conv)
    | .ok raw =>
      if jsTrim raw = "" then
        (.ret { ok := false, error := some "Transcript is empty", answer := none,
                conversationLength := none, isNewConversation := none }, conv)
      else
        let text := removeCR raw
        let truncatedText :=
          if text.length > MAX_TRANSCRIPT_CHARS then
            (⟨text.toList.drop (text.length - MAX_TRANSCRIPT_CHARS)⟩ : String)
          else text
        let pc : String × TConv :=
          if isNewTranscript || conv.history.isEmpty then
            (askTranscriptFirstPrompt q truncatedText,
              { conv with transcriptId := some id, history := [] })
          else (askTranscriptFollowUpPrompt q, conv)
        match gem pc.2.history pc.1 with
        | .error e => (.thrown e, pc.2)
        | .ok answer =>
          let h2 := appendTrim pc.2.history ⟨"user", pc.1⟩ ⟨"model", answer⟩
          (.ret { ok := true, error := none, answer := some answer,
                  conversationLength := some (h2.length / 2),
                  isNewConversation := some (isNewTranscript || decide (h2.length = 2)) },
            { pc.2 with history := h2 })

/-! ### Concrete sample inputs used by the witness instances -/

/-- A file whose name carries the timestamp pattern only in the middle. -/
def laterPatternEntry : FsEntry :=
  { name := "notes 2024-01-05 10.00.00.txt", mtimeMs := 1700000000000, content := none }

/-- A session that has already asked once with the empty-filters fingerprint. -/
def askedOnceConv : Conv :=
  { history := [⟨"user", "p"⟩, ⟨"model", "a"⟩]
    context := some (mkFiltersKey "" "" "all" "" "") }

/-- A session mid-conversation about the transcript at `t/a.txt`. -/
def followUpTConv : TConv :=
  { history := [⟨"user", "p"⟩, ⟨"model", "a"⟩], transcriptId := some "t/a.txt" }

/-- The content-matched file of the spec scenario. -/
def budgetNotesEntry : FsEntry :=
  { name := "2024-01-05 10.00.00 notes.txt", mtimeMs := 0,
    content := some "budget review" }

/-- The keyword-stage parameters for `keywords = "budget"`, no date bounds. -/
def budgetParams : SearchParams :=
  { kws := splitKeywords "budget", fromMs := none, toMs := none, limit := 10 }

/-- A file whose name itself matches the keyword. -/
def budgetTitleEntry : FsEntry :=
  { name := "2024-01-05 10.00.00 budget notes.txt", mtimeMs := 0, content := some "x" }

/-! ### Helper lemmas -/

/-- Sorting then truncating yields a list of bounded length. -/
lemma take_insertionSort_length (l : List Item) (n : Nat) :
    ((List.insertionSort modGE l).take n).length ≤ n := by
  rw [List.length_take]
  exact Nat.min_le_left _ _

/-- Sorting then truncating yields a sorted list. -/
lemma take_insertionSort_sorted (l : List Item) (n : Nat) :
    List.Sorted modGE ((List.insertionSort modGE l).take n) :=
  List.Pairwise.sublist (List.take_sublist n _) (List.sorted_insertionSort modGE l)

/-- One history operation preserves evenness and the `2 × 20` cap. -/
lemma applyHistOp_inv (op : HistOp) (h : List Turn)
    (hev : h.length % 2 = 0) (hle : h.length ≤ MAX_CONVERSATION_HISTORY * 2) :
    (applyHistOp op h).length % 2 = 0 ∧
      (applyHistOp op h).length ≤ MAX_CONVERSATION_HISTORY * 2 := by
  cases op with
  | reset => simp [applyHistOp]
  | append u m =>
    simp only [applyHistOp, appendTrim, MAX_CONVERSATION_HISTORY] at *
    split
    · simp only [List.length_drop, List.length_append, List.length_cons,
        List.length_nil] at *
      omega
    · simp only [List.length_append, List.length_cons, List.length_nil] at *
      omega

/-- A whole call sequence preserves the history invariant. -/
lemma runHistOps_inv (ops : List HistOp) :
    ∀ h : List Turn, h.length % 2 = 0 → h.length ≤ MAX_CONVERSATION_HISTORY * 2 →
      (runHistOps ops h).length % 2 = 0 ∧
        (runHistOps ops h).length ≤ MAX_CONVERSATION_HISTORY * 2 := by
  induction ops with
  | nil => intro h hev hle; exact ⟨hev, hle⟩
  | cons op rest ih =>
    intro h hev hle
    have := applyHistOp_inv op h hev hle
    exact ih (applyHistOp op h) this.1 this.2

/-- Characters are equal iff their scalar values are. -/
lemma charEq_iff_toNat (c d : Char) : c = d ↔ c.toNat = d.toNat := by
  constructor
  · exact fun h => congrArg Char.toNat h
  · intro h
    rw [← Char.ofNat_toNat c, ← Char.ofNat_toNat d, h]

/-- Lower-casing does not change whether a character is whitespace (the
shifted range `a`–`z` contains no whitespace, and whitespace characters are
outside `A`–`Z` so they are left unchanged). -/
lemma wsChar_lcChar (c : Char) : wsChar (lcChar c) = wsChar c := by
  unfold lcChar
  split
  next h =>
    have h65 : 65 ≤ c.toNat := h.1
    have h90 : c.toNat ≤ 90 := h.2
    have hv : (c.toNat + 32).isValidChar := Or.inl (by omega)
    have ht : (Char.ofNat (c.toNat + 32)).toNat = c.toNat + 32 := by
      rw [Char.ofNat, dif_pos hv]
      rfl
    have l1 : (' ').toNat = 32 := rfl
    have l2 : ('\t').toNat = 9 := rfl
    have l3 : ('\n').toNat = 10 := rfl
    have l4 : ('\r').toNat = 13 := rfl
    have l5 : ('\x0b').toNat = 11 := rfl
    have l6 : ('\x0c').toNat = 12 := rfl
    have l7 : (' ').toNat = 160 := by decide
    have hx : wsChar (Char.ofNat (c.toNat + 32)) = false := by
      simp only [wsChar, charEq_iff_toNat, ht, l1, l2, l3, l4, l5, l6, l7,
        Bool.or_eq_false_iff, decide_eq_false_iff_not]
      refine ⟨⟨⟨⟨⟨⟨?_, ?_⟩, ?_⟩, ?_⟩, ?_⟩, ?_⟩, ?_⟩ <;> omega
    have hc : wsChar c = false := by
      simp only [wsChar, charEq_iff_toNat, l1, l2, l3, l4, l5, l6, l7,
        Bool.or_eq_false_iff, decide_eq_false_iff_not]
      refine ⟨⟨⟨⟨⟨⟨?_, ?_⟩, ?_⟩, ?_⟩, ?_⟩, ?_⟩, ?_⟩ <;> omega
    rw [hx, hc]
  next => rfl

/-- A prefix occurrence keeps all its characters inside the haystack. -/
lemma prefixOfB_mem : ∀ (w l : List Char), prefixOfB w l = true → ∀ c ∈ w, c ∈ l := by
  intro w
  induction w with
  | nil => intro l _ c hc; exact absurd hc (List.not_mem_nil c)
  | cons a as ih =>
    intro l h c hc
    cases l with
    | nil => exact absurd h (by simp [prefixOfB])
    | cons b bs =>
      simp only [prefixOfB, Bool.and_eq_true, decide_eq_true_eq] at h
      rcases List.mem_cons.1 hc with rfl | hmem
      · exact h.1 ▸ List.mem_cons_self b bs
      · exact List.mem_cons_of_mem b (ih bs h.2 c hmem)

/-- A substring occurrence keeps all its characters inside the haystack. -/
lemma containsSub_mem : ∀ (hay w : List Char), containsSub hay w = true →
    ∀ c ∈ w, c ∈ hay := by
  intro hay
  induction hay with
  | nil =>
    intro w h c hc
    unfold containsSub at h
    simp only [Bool.or_eq_true] at h
    rcases h with h | h
    · exact prefixOfB_mem w [] h c hc
    · exact absurd h (by simp)
  | cons a t ih =>
    intro w h c hc
    unfold containsSub at h
    simp only [Bool.or_eq_true] at h
    rcases h with h | h
    · exact prefixOfB_mem w (a :: t) h c hc
    · exact List.mem_cons_of_mem a (ih w h c hc)

/-- Every token the splitter emits is a non-empty run of non-separator
characters (given the accumulator is one so far). -/
lemma splitToksAux_mem : ∀ (l cur : List Char),
    (∀ c ∈ cur, sepChar c = false) →
    ∀ t ∈ splitToksAux cur l, t ≠ [] ∧ ∀ c ∈ t, sepChar c = false := by
  intro l
  induction l with
  | nil =>
    intro cur hcur t ht
    unfold splitToksAux at ht
    split at ht
    · exact absurd ht (List.not_mem_nil t)
    · next hne =>
      rcases List.mem_singleton.1 ht with rfl
      refine ⟨?_, ?_⟩
      · simp only [ne_eq, List.reverse_eq_nil_iff]
        exact fun h => hne (by simp [h])
      · intro c hc
        exact hcur c (List.mem_reverse.1 hc)
  | cons a rest ih =>
    intro cur hcur t ht
    unfold splitToksAux at ht
    split at ht
    · split at ht
      · exact ih [] (by intro c hc; exact absurd hc (List.not_mem_nil c)) t ht
      · next hne =>
        rcases List.mem_cons.1 ht with rfl | hmem
        · refine ⟨?_, ?_⟩
          · simp only [ne_eq, List.reverse_eq_nil_iff]
            exact fun h => hne (by simp [h])
          · intro c hc
            exact hcur c (List.mem_reverse.1 hc)
        · exact ih [] (by intro c hc; exact absurd hc (List.not_mem_nil c)) t hmem
    · next hsep =>
      refine ih (a :: cur) ?_ t ht
      intro c hc
      rcases List.mem_cons.1 hc with rfl | hmem
      · exact Bool.of_not_eq_true hsep
      · exact hcur c hmem

/-- Every keyword produced by the split-lower-case pipeline is non-empty and
contains no whitespace character. -/
lemma splitKeywords_mem (raw : String) :
    ∀ w ∈ splitKeywords raw, w ≠ [] ∧ ∀ c ∈ w, wsChar c = false := by
  intro w hw
  unfold splitKeywords at hw
  rcases List.mem_map.1 hw with ⟨t, ht, rfl⟩
  have h := splitToksAux_mem raw.toList []
    (by intro c hc; exact absurd hc (List.not_mem_nil c)) t ht
  refine ⟨by simpa using h.1, ?_⟩
  intro c hc
  rcases List.mem_map.1 hc with ⟨c0, hc0, rfl⟩
  have hsep := h.2 c0 hc0
  have hws : wsChar c0 = false := by
    simp only [sepChar, Bool.or_eq_false_iff] at hsep
    exact hsep.2
  rw [wsChar_lcChar, hws]

/-- Whitespace collapsing keeps a non-whitespace witness. -/
lemma collapseWsAux_exists_nonws : ∀ (l : List Char) (flag : Bool),
    (∃ b ∈ l, wsChar b = false) →
    ∃ b ∈ collapseWsAux flag l, wsChar b = false := by
  intro l
  induction l with
  | nil => intro flag h; simpa using h
  | cons c rest ih =>
    intro flag h
    rcases h with ⟨b, hb, hbw⟩
    by_cases hc : wsChar c = true
    · have hbr : b ∈ rest := by
        rcases List.mem_cons.1 hb with rfl | hmem
        · exact absurd hc (by simp [hbw])
        · exact hmem
      rcases ih true ⟨b, hbr, hbw⟩ with ⟨b2, hb2, hb2w⟩
      cases flag with
      | true =>
        refine ⟨b2, ?_, hb2w⟩
        simpa [collapseWsAux, hc] using hb2
      | false =>
        refine ⟨b2, ?_, hb2w⟩
        simp only [collapseWsAux, hc, if_true]
        exact List.mem_cons_of_mem ' ' hb2
    · have hcf : wsChar c = false := Bool.of_not_eq_true hc
      have step : collapseWsAux flag (c :: rest) = c :: collapseWsAux false rest := by
        simp [collapseWsAux, hcf]
      rw [step]
      rcases List.mem_cons.1 hb with rfl | hmem
      · exact ⟨b, List.mem_cons_self b _, hbw⟩
      · rcases ih false ⟨b, hmem, hbw⟩ with ⟨b2, hb2, hb2w⟩
        exact ⟨b2, List.mem_cons_of_mem c hb2, hb2w⟩

/-- `dropWhile` keeps a witness that falsifies the predicate. -/
lemma dropWhile_exists_not (p : Char → Bool) : ∀ l : List Char,
    (∃ b ∈ l, p b = false) → ∃ b ∈ l.dropWhile p, p b = false := by
  intro l
  induction l with
  | nil => intro h; simpa using h
  | cons c rest ih =>
    intro h
    rcases h with ⟨b, hb, hbw⟩
    rw [List.dropWhile_cons]
    by_cases hc : p c = true
    · have hbr : b ∈ rest := by
        rcases List.mem_cons.1 hb with rfl | hmem
        · exact absurd hc (by simp [hbw])
        · exact hmem
      rw [hc]
      simpa using ih ⟨b, hbr, hbw⟩
    · have hcf : p c = false := Bool.of_not_eq_true hc
      rw [hcf]
      simp only [Bool.false_eq_true, if_false]
      exact ⟨b, hb, hbw⟩

/-- Trimming keeps a non-whitespace witness, hence a non-empty result. -/
lemma trimList_ne_nil (l : List Char) (h : ∃ b ∈ l, wsChar b = false) :
    trimList l ≠ [] := by
  unfold trimList
  rcases dropWhile_exists_not wsChar l h with ⟨b, hb, hbw⟩
  rcases dropWhile_exists_not wsChar ((l.dropWhile wsChar).reverse)
      ⟨b, List.mem_reverse.2 hb, hbw⟩ with ⟨b2, hb2, _⟩
  intro hnil
  rw [List.reverse_eq_nil_iff] at hnil
  rw [hnil] at hb2
  exact absurd hb2 (List.not_mem_nil b2)

/-- A matched keyword forces the content to contain a non-whitespace
character. -/
lemma anyKeywordHit_exists_nonws (raw body : String)
    (hkws : splitKeywords raw ≠ [])
    (hhit : anyKeywordHit body (splitKeywords raw) = true) :
    ∃ b ∈ body.toList, wsChar b = false := by
  unfold anyKeywordHit at hhit
  rw [if_neg (by simpa [List.isEmpty_iff] using hkws)] at hhit
  rcases List.any_eq_true.1 hhit with ⟨w, hw, hsub⟩
  have hprops := splitKeywords_mem raw w hw
  rcases w with _ | ⟨c, w'⟩
  · exact absurd rfl hprops.1
  · have hcw : c ∈ c :: w' := List.mem_cons_self c w'
    have hcmem : c ∈ normL body := containsSub_mem (normL body) (c :: w') hsub c hcw
    rcases List.mem_map.1 hcmem with ⟨b, hb, rfl⟩
    refine ⟨b, hb, ?_⟩
    rw [← wsChar_lcChar b]
    exact hprops.2 (lcChar b) hcw

/-- A preview built from content holding a non-whitespace character is
non-empty. -/
lemma makePreview_ne_empty (body : String) (n : Nat)
    (h : ∃ b ∈ body.toList, wsChar b = false) :
    makePreview body n ≠ "" := by
  unfold makePreview
  have hne := trimList_ne_nil (collapseWs body.toList)
    (collapseWsAux_exists_nonws body.toList false h)
  split
  · intro he
    have : (trimList (collapseWs body.toList)).take (n - 1) ++ ['…'] = [] :=
      congrArg String.data he
    simp at this
  · intro he
    exact hne (congrArg String.data he)

/-- The preview clip bounds the length by `maxLen` (for positive `maxLen`). -/
lemma makePreview_length_le (body : String) (n : Nat) (hn : 1 ≤ n) :
    (makePreview body n).length ≤ n := by
  unfold makePreview
  split
  · next hgt =>
    show ((trimList (collapseWs body.toList)).take (n - 1) ++ ['…']).length ≤ n
    rw [List.length_append, List.length_take]
    simp only [List.length_cons, List.length_nil]
    omega
  · next hle =>
    show (trimList (collapseWs body.toList)).length ≤ n
    omega

/-! ### Claim theorems -/

/-- C4: starting from a fresh session, after any sequence of history resets
and user/model pair appends (the only history mutations `ask` and
`askTranscript` perform), the session history length is always even and never
exceeds `2 × MAX_CONVERSATION_HISTORY = 40`. -/
theorem history_even_and_bounded (ops : List HistOp) :
    (runHistOps ops []).length % 2 = 0 ∧
      (runHistOps ops []).length ≤ MAX_CONVERSATION_HISTORY * 2 :=
  runHistOps_inv ops [] (by simp) (by simp)

/-- C7: for either conversation store, `clear` deletes the session entry, and
a subsequent `get` on the same id returns exactly the fresh state
`{history: [], context/transcriptId: null}` — the same state `get` returns
for a session id never referenced before (modelled by the empty store). -/
theorem clear_then_get_fresh (m : String → Option Conv) (mt : String → Option TConv)
    (sid : String) :
    (getConversation (clearConversation m sid) sid).1 = freshConv ∧
    (getConversation (fun _ => none) sid).1 = freshConv ∧
    (getConversation (clearConversation m sid) sid).2 sid = some freshConv ∧
    (getConversation (fun _ => none) sid).2 sid = some freshConv ∧
    (getTranscriptConversation (clearTranscriptConversation mt sid) sid).1 = freshTConv ∧
    (getTranscriptConversation (fun _ => none) sid).1 = freshTConv ∧
    (getTranscriptConversation (clearTranscriptConversation mt sid) sid).2 sid =
      some freshTConv ∧
    (getTranscriptConversation (fun _ => none) sid).2 sid = some freshTConv := by
  simp [getConversation, clearConversation, getTranscriptConversation,
    clearTranscriptConversation]

/-- C2: every `findtranscripts` result list (local or Google Drive backend)
has length at most `min(limit, 50)` — `limit` defaulting to 10 when absent —
and is sorted by the `modified` field in descending lexicographic string
order. -/
theorem results_bounded_and_sorted (keywords fromS toS : String)
    (limitParam : Option Nat) (rootPath : String) (roots : List FsTree)
    (groots : List GTree) (dateParse : String → Int) (nowMs : Int) :
    ((findTranscriptsLocal keywords fromS toS limitParam rootPath roots).length ≤
        min (limitParam.getD 10) 50 ∧
      List.Sorted modGE (findTranscriptsLocal keywords fromS toS limitParam rootPath roots)) ∧
    ((findTranscriptsGDrive keywords fromS toS limitParam groots dateParse nowMs).length ≤
        min (limitParam.getD 10) 50 ∧
      List.Sorted modGE (findTranscriptsGDrive keywords fromS toS limitParam groots
        dateParse nowMs)) := by
  refine ⟨⟨?_, ?_⟩, ⟨?_, ?_⟩⟩
  · exact take_insertionSort_length _ _
  · exact take_insertionSort_sorted _ _
  · exact take_insertionSort_length _ _
  · exact take_insertionSort_sorted _ _

/-- `Date.UTC` is linear in the day argument: one more day is
86 400 000 ms later (this is the ECMA-262 MakeDay normalization, so the
`+ 1` day of the exclusive end bound is correct even on month ends). -/
lemma dateUTCms_day_succ (y mo0 d : Int) :
    dateUTCms y mo0 (d + 1) 0 0 0 = dateUTCms y mo0 d 0 0 0 + 86400000 := by
  simp only [dateUTCms]
  ring

/-- C3: when the `to` parameter parses as a date (either accepted format),
the end-exclusive parse is exactly one day after the start-of-day parse, and
any effective timestamp within that day passes the `to` side of the date
filter; an empty `to`/`from` parses to no bound, and an absent bound never
rejects. -/
theorem to_bound_end_inclusive (s : String) (t0 ms : Int)
    (h : parseDateInput s false = some t0)
    (hlo : t0 ≤ ms) (hhi : ms < t0 + 86400000) :
    parseDateInput s true = some (t0 + 86400000) ∧
    dateGuardTo (parseDateInput s true) ms = false ∧
    (∀ b : Bool, parseDateInput "" b = none) ∧
    (∀ t : Int, dateGuardFrom none t = false ∧ dateGuardTo none t = false) := by
  have h1 : parseDateInput s true = some (t0 + 86400000) := by
    unfold parseDateInput endOff at h ⊢
    revert h
    generalize (jsTrim s).toList = l
    intro h
    unfold parseDateList at h ⊢
    split at h
    next c0 c1 c2 c3 c4 c5 c6 c7 c8 c9 =>
      split_ifs at h ⊢
      · simp only [Option.some.injEq] at h ⊢
        rw [← h, show dv2 c3 c4 + (1 : Int) = (dv2 c3 c4 + 0) + 1 by ring]
        exact dateUTCms_day_succ _ _ _
      · simp only [Option.some.injEq] at h ⊢
        rw [← h, show dv2 c8 c9 + (1 : Int) = (dv2 c8 c9 + 0) + 1 by ring]
        exact dateUTCms_day_succ _ _ _
    next => exact absurd h (by simp)
  refine ⟨h1, ?_, fun b => rfl, fun t => ⟨rfl, rfl⟩⟩
  rw [h1]
  simp only [dateGuardTo]
  split
  · rfl
  · simpa using by omega

/-- Concrete instance of `to_bound_end_inclusive`: `to = "2024-01-05"`, a file
timestamped 2024-01-05T10:00Z. -/
theorem to_bound_end_inclusive_witness :
    (parseDateInput "2024-01-05" false = some 1704412800000 ∧
      (1704412800000 : Int) ≤ 1704448800000 ∧
      (1704448800000 : Int) < 1704412800000 + 86400000) ∧
    (parseDateInput "2024-01-05" true = some (1704412800000 + 86400000) ∧
      dateGuardTo (parseDateInput "2024-01-05" true) 1704448800000 = false ∧
      (∀ b : Bool, parseDateInput "" b = none) ∧
      (∀ t : Int, dateGuardFrom none t = false ∧ dateGuardTo none t = false)) :=
  ⟨⟨by decide, by decide, by decide⟩,
    to_bound_end_inclusive "2024-01-05" 1704412800000 1704448800000
      (by decide) (by decide) (by decide)⟩

/-- C10: the filename-embedded timestamp is recognized only when the
date-time pattern sits at the very start of the name (the regex is anchored):
a successful parse exhibits the pattern as the leading nineteen characters; a
name carrying the pattern only later (e.g. after a prefix) parses to `null`;
and on a `null` parse both search variants fall back to the backend-reported
modification time (`stats.mtime` locally; `Date.parse(f.modifiedTime)` on
Drive). -/
theorem name_timestamp_anchored :
    (∀ (name : String) (ms : Int), parseNameTimestampMs name = some ms →
      nameTsAtStart name) ∧
    parseNameTimestampMs "notes 2024-01-05 10.00.00.txt" = none ∧
    (∀ e : FsEntry, parseNameTimestampMs e.name = none → effNameMs e = e.mtimeMs) ∧
    (∀ (f : GFile) (dateParse : String → Int) (nowMs : Int) (s : String),
      parseNameTimestampMs f.name = none → f.modifiedTime = some s → s ≠ "" →
      effNameMsG f dateParse nowMs = dateParse s) := by
  refine ⟨?_, by decide, ?_, ?_⟩
  · intro name ms h
    unfold parseNameTimestampMs at h
    split at h
    next y1 y2 y3 y4 s1 m1 m2 s2 d1 d2 s3 h1 h2 s4 n1 n2 s5 o1 o2 rest heq =>
      split at h
      next hc =>
        exact ⟨y1, y2, y3, y4, s1, m1, m2, s2, d1, d2, s3, h1, h2, s4, n1, n2, s5,
          o1, o2, rest, heq, hc⟩
      next => exact absurd h (by simp)
    next => exact absurd h (by simp)
  · intro e h
    unfold effNameMs
    rw [h]
  · intro f dateParse nowMs s h hmod hs
    simp [effNameMsG, h, hmod, hs]

/-- Concrete instance of `name_timestamp_anchored`: the anchored name parses
and therefore starts with the pattern; an entry whose name carries the
pattern only later uses its mtime. -/
theorem name_timestamp_anchored_witness :
    (parseNameTimestampMs "2024-01-05 10.00.00 notes.txt" = some 1704448800000 ∧
      parseNameTimestampMs laterPatternEntry.name = none) ∧
    (nameTsAtStart "2024-01-05 10.00.00 notes.txt" ∧
      effNameMs laterPatternEntry = 1700000000000) :=
  ⟨⟨by decide, by decide⟩,
    ⟨name_timestamp_anchored.1 "2024-01-05 10.00.00 notes.txt" 1704448800000 (by decide),
      name_timestamp_anchored.2.2.1 laterPatternEntry (by decide)⟩⟩

/-- C5: between two `ask` calls on one session, a filter fingerprint that
differs from the stored one resets the history before the new turn (the
post-call history is exactly the fresh user/model pair), selects the full
items-context prompt, and reports `isNewConversation: true`; an identical
fingerprint with non-empty history selects the follow-up template — which
does not re-embed the items block — and reports `isNewConversation: false`. -/
theorem fingerprint_invalidation_and_followup (conv : Conv)
    (fromS toS typeS countriesS topicS question style : String)
    (rows : List Row) (answer : String) :
    (conv.context ≠ some (mkFiltersKey fromS toS typeS countriesS topicS) →
      (askStep conv fromS toS typeS countriesS topicS question style rows answer).1 =
          buildPromptSimple question rows style ∧
        (askStep conv fromS toS typeS countriesS topicS question style rows answer).2.1 =
          true ∧
        (askStep conv fromS toS typeS countriesS topicS question style rows answer).2.2.history =
          [⟨"user", buildPromptSimple question rows style⟩, ⟨"model", answer⟩]) ∧
    (conv.context = some (mkFiltersKey fromS toS typeS countriesS topicS) →
      conv.history ≠ [] →
      (askStep conv fromS toS typeS countriesS topicS question style rows answer).1 =
          followUpPromptAsk question ∧
        (askStep conv fromS toS typeS countriesS topicS question style rows answer).2.1 =
          false) := by
  constructor
  · intro h
    have hb : decide (conv.context ≠ some (mkFiltersKey fromS toS typeS countriesS topicS)) =
        true := decide_eq_true h
    refine ⟨?_, ?_, ?_⟩ <;>
      simp [askStep, hb, appendTrim, MAX_CONVERSATION_HISTORY]
  · intro h1 h2
    have hb : decide (conv.context ≠ some (mkFiltersKey fromS toS typeS countriesS topicS)) =
        false := by simp [h1]
    have he : conv.history.isEmpty = false := by
      simpa [List.isEmpty_iff] using h2
    constructor <;> simp [askStep, hb, he]

/-- Concrete instance of `fingerprint_invalidation_and_followup`: a fresh
session (stored fingerprint `null`) gets the full prompt and a reset-then-
append history; the same session asked again with identical filters gets the
follow-up template. -/
theorem fingerprint_invalidation_and_followup_witness :
    (freshConv.context ≠ some (mkFiltersKey "" "" "all" "" "") ∧
      askedOnceConv.context = some (mkFiltersKey "" "" "all" "" "") ∧
      askedOnceConv.history ≠ []) ∧
    ((askStep freshConv "" "" "all" "" "" "q1" "normal" [] "a1").1 =
        buildPromptSimple "q1" [] "normal" ∧
      (askStep freshConv "" "" "all" "" "" "q1" "normal" [] "a1").2.1 = true ∧
      (askStep freshConv "" "" "all" "" "" "q1" "normal" [] "a1").2.2.history =
        [⟨"user", buildPromptSimple "q1" [] "normal"⟩, ⟨"model", "a1"⟩]) ∧
    ((askStep askedOnceConv "" "" "all" "" "" "q2" "normal" [] "a2").1 =
        followUpPromptAsk "q2" ∧
      (askStep askedOnceConv "" "" "all" "" "" "q2" "normal" [] "a2").2.1 = false) :=
  ⟨⟨by decide, rfl, by decide⟩,
    (fingerprint_invalidation_and_followup freshConv "" "" "all" "" "" "q1" "normal"
      [] "a1").1 (by decide),
    (fingerprint_invalidation_and_followup askedOnceConv "" "" "all" "" "" "q2" "normal"
      [] "a2").2 rfl (by decide)⟩

/-- C8: an `asktranscript` call whose `id` dispatches to a read that fails
returns the structured failure `{ok: false, error: "Failed to read
transcript: ..."}` — a returned value, not a propagated exception — with no
answer payload, and leaves the session state untouched. -/
theorem asktranscript_read_failure_structured (pid pquestion : String) (conv : TConv)
    (readFs readGd : String → Except String String)
    (gem : List Turn → String → Except String String) (e : String)
    (hid : jsTrim pid ≠ "") (hq : jsTrim pquestion ≠ "")
    (hread : readTranscriptRaw (jsTrim pid) readFs readGd = .error e) :
    askTranscript pid pquestion conv readFs readGd gem =
      (.ret { ok := false, error := some ("Failed to read transcript: " ++ e),
              answer := none, conversationLength := none, isNewConversation := none },
        conv) := by
  simp only [askTranscript, if_neg hid, if_neg hq, hread]

/-- Concrete instance of `asktranscript_read_failure_structured`: a missing
local path. -/
theorem asktranscript_read_failure_structured_witness :
    (jsTrim "missing.txt" ≠ "" ∧ jsTrim "what happened?" ≠ "" ∧
      readTranscriptRaw (jsTrim "missing.txt")
        (fun _ => .error "ENOENT: no such file or directory")
        (fun _ => .error "Google Drive not configured") = .error
          "ENOENT: no such file or directory") ∧
    askTranscript "missing.txt" "what happened?" freshTConv
        (fun _ => .error "ENOENT: no such file or directory")
        (fun _ => .error "Google Drive not configured")
        (fun _ _ => .ok "unused") =
      (.ret { ok := false,
              error := some ("Failed to read transcript: " ++
                "ENOENT: no such file or directory"),
              answer := none, conversationLength := none, isNewConversation := none },
        freshTConv) :=
  ⟨⟨by decide, by decide, rfl⟩,
    asktranscript_read_failure_structured "missing.txt" "what happened?" freshTConv
      (fun _ => .error "ENOENT: no such file or directory")
      (fun _ => .error "Google Drive not configured")
      (fun _ _ => .ok "unused") "ENOENT: no such file or directory"
      (by decide) (by decide) rfl⟩

/-- C9: `askTranscript` re-reads the transcript on every call, including a
follow-up turn for the very transcript id already stored in the session (the
hypotheses put the session in that follow-up state).  If the read now fails,
or succeeds with empty/whitespace-only content, the call returns `ok: false`
and appends nothing to the session history — even though the follow-up prompt
itself would not have embedded the transcript text. -/
theorem asktranscript_followup_reread_failure (pid pquestion : String) (conv : TConv)
    (readFs readGd : String → Except String String)
    (gem : List Turn → String → Except String String)
    (hid : jsTrim pid ≠ "") (hq : jsTrim pquestion ≠ "")
    (hfollow : conv.transcriptId = some (jsTrim pid)) (hhist : conv.history ≠ []) :
    (∀ e : String, readTranscriptRaw (jsTrim pid) readFs readGd = .error e →
      askTranscript pid pquestion conv readFs readGd gem =
        (.ret { ok := false, error := some ("Failed to read transcript: " ++ e),
                answer := none, conversationLength := none, isNewConversation := none },
          conv)) ∧
    (∀ raw : String, readTranscriptRaw (jsTrim pid) readFs readGd = .ok raw →
      jsTrim raw = "" →
      askTranscript pid pquestion conv readFs readGd gem =
        (.ret { ok := false, error := some "Transcript is empty", answer := none,
                conversationLength := none, isNewConversation := none },
          conv)) := by
  constructor
  · intro e hread
    simp only [askTranscript, if_neg hid, if_neg hq, hread]
  · intro raw hread hempty
    simp only [askTranscript, if_neg hid, if_neg hq, hread, hempty, if_true]

/-- Concrete instance of `asktranscript_followup_reread_failure`: the stored
transcript becomes unreadable (first part) or whitespace-only (second part)
between turns. -/
theorem asktranscript_followup_reread_failure_witness :
    (jsTrim "t/a.txt" ≠ "" ∧ jsTrim "and then?" ≠ "" ∧
      followUpTConv.transcriptId = some (jsTrim "t/a.txt") ∧
      followUpTConv.history ≠ [] ∧
      readTranscriptRaw (jsTrim "t/a.txt") (fun _ => .error "EACCES") (fun _ => .error "x") =
        .error "EACCES" ∧
      readTranscriptRaw (jsTrim "t/a.txt") (fun _ => .ok "  \n ") (fun _ => .error "x") =
        .ok "  \n " ∧ jsTrim "  \n " = "") ∧
    (askTranscript "t/a.txt" "and then?" followUpTConv (fun _ => .error "EACCES")
        (fun _ => .error "x") (fun _ _ => .ok "unused") =
      (.ret { ok := false, error := some ("Failed to read transcript: " ++ "EACCES"),
              answer := none, conversationLength := none, isNewConversation := none },
        followUpTConv)) ∧
    (askTranscript "t/a.txt" "and then?" followUpTConv (fun _ => .ok "  \n ")
        (fun _ => .error "x") (fun _ _ => .ok "unused") =
      (.ret { ok := false, error := some "Transcript is empty", answer := none,
              conversationLength := none, isNewConversation := none },
        followUpTConv)) :=
  ⟨⟨by decide, by decide, by decide, by decide, rfl, rfl, by decide⟩,
    (asktranscript_followup_reread_failure "t/a.txt" "and then?" followUpTConv
      (fun _ => .error "EACCES") (fun _ => .error "x") (fun _ _ => .ok "unused")
      (by decide) (by decide) (by decide) (by decide)).1 "EACCES" rfl,
    (asktranscript_followup_reread_failure "t/a.txt" "and then?" followUpTConv
      (fun _ => .ok "  \n ") (fun _ => .error "x") (fun _ _ => .ok "unused")
      (by decide) (by decide) (by decide) (by decide)).2 "  \n " rfl (by decide)⟩

/-- C1: for a candidate the scan actually examines (allowed extension, inside
the date window, keyword list non-empty, content readable), the file is
appended to the results exactly when some keyword is a case-insensitive
substring of its filename, or — the filename matching no keyword and fewer
than `MAX_CONTENT_CHECKS = 200` content checks having been performed so far in
this request — some keyword is a case-insensitive substring of its content. -/
theorem keyword_match_inclusion_rule (raw : String) (P : SearchParams) (dir : String)
    (st : ScanState) (e : FsEntry) (body : String)
    (hP : P.kws = splitKeywords raw)
    (hkws : splitKeywords raw ≠ [])
    (hext : hasAllowedTranscriptExt e.name = true)
    (hfrom : dateGuardFrom P.fromMs (effNameMs e) = false)
    (hto : dateGuardTo P.toMs (effNameMs e) = false)
    (hbody : e.content = some body) :
    (processFile P dir st e).results.length = st.results.length + 1 ↔
      (anyKeywordHit e.name P.kws = true ∨
        (anyKeywordHit e.name P.kws = false ∧ st.checks < MAX_CONTENT_CHECKS ∧
          anyKeywordHit body P.kws = true)) := by
  have hkE : P.kws.isEmpty = false := by
    rw [hP]
    simpa [List.isEmpty_iff] using hkws
  by_cases h1 : anyKeywordHit e.name P.kws = true
  · simp [processFile, hext, hfrom, hto, hbody, hkE, h1]
  · have h1f : anyKeywordHit e.name P.kws = false := by
      cases hx : anyKeywordHit e.name P.kws
      · rfl
      · exact absurd hx h1
    by_cases h2 : st.checks < MAX_CONTENT_CHECKS
    · by_cases h3 : anyKeywordHit body P.kws = true
      · simp [processFile, hext, hfrom, hto, hbody, hkE, h1f, h2, h3]
      · have h3f : anyKeywordHit body P.kws = false := by
          cases hx : anyKeywordHit body P.kws
          · rfl
          · exact absurd hx h3
        simp [processFile, hext, hfrom, hto, hbody, hkE, h1f, h2, h3f]
    · simp [processFile, hext, hfrom, hto, hbody, hkE, h1f, h2]

/-- Concrete instance of `keyword_match_inclusion_rule`: `keywords="budget"`
against `2024-01-05 10.00.00 notes.txt` whose content is "budget review" —
no filename hit, budget fresh, so inclusion is decided by the content scan. -/
theorem keyword_match_inclusion_rule_witness :
    (budgetParams.kws = splitKeywords "budget" ∧ splitKeywords "budget" ≠ [] ∧
      hasAllowedTranscriptExt budgetNotesEntry.name = true ∧
      dateGuardFrom budgetParams.fromMs (effNameMs budgetNotesEntry) = false ∧
      dateGuardTo budgetParams.toMs (effNameMs budgetNotesEntry) = false ∧
      budgetNotesEntry.content = some "budget review") ∧
    ((processFile budgetParams "./transcripts" { results := [], checks := 0 }
          budgetNotesEntry).results.length =
        ({ results := [], checks := 0 } : ScanState).results.length + 1 ↔
      (anyKeywordHit budgetNotesEntry.name budgetParams.kws = true ∨
        (anyKeywordHit budgetNotesEntry.name budgetParams.kws = false ∧
          ({ results := [], checks := 0 } : ScanState).checks < MAX_CONTENT_CHECKS ∧
          anyKeywordHit "budget review" budgetParams.kws = true))) :=
  ⟨⟨rfl, by decide, by decide, by decide, by decide, rfl⟩,
    keyword_match_inclusion_rule "budget" budgetParams "./transcripts"
      { results := [], checks := 0 } budgetNotesEntry "budget review"
      rfl (by decide) (by decide) (by decide) (by decide) rfl⟩

/-- C6: for a candidate the scan examines with a non-empty keyword list, a
filename match appends the result row with an empty `preview`; a content
match (filename matched nothing, budget not exhausted, content readable and
matching) appends the row with `preview = makePreview(body, 500)` — the
content with whitespace runs collapsed, trimmed, clipped to at most 500
characters — which is then necessarily non-empty, since the matched keyword
contains no whitespace. -/
theorem preview_iff_content_match (raw : String) (P : SearchParams) (dir : String)
    (st : ScanState) (e : FsEntry) (body : String)
    (hP : P.kws = splitKeywords raw)
    (hkws : splitKeywords raw ≠ [])
    (hext : hasAllowedTranscriptExt e.name = true)
    (hfrom : dateGuardFrom P.fromMs (effNameMs e) = false)
    (hto : dateGuardTo P.toMs (effNameMs e) = false) :
    (anyKeywordHit e.name P.kws = true →
      (processFile P dir st e).results =
        st.results ++ [mkLocalItem dir e (effNameMs e) ""]) ∧
    (anyKeywordHit e.name P.kws = false → st.checks < MAX_CONTENT_CHECKS →
      e.content = some body → anyKeywordHit body P.kws = true →
      (processFile P dir st e).results =
          st.results ++ [mkLocalItem dir e (effNameMs e) (makePreview body 500)] ∧
        makePreview body 500 ≠ "" ∧ (makePreview body 500).length ≤ 500) := by
  have hkE : P.kws.isEmpty = false := by
    rw [hP]
    simpa [List.isEmpty_iff] using hkws
  constructor
  · intro h1
    simp [processFile, hext, hfrom, hto, hkE, h1]
  · intro h1 h2 hbody h3
    refine ⟨?_, ?_, makePreview_length_le body 500 (by omega)⟩
    · simp [processFile, hext, hfrom, hto, hkE, h1, h2, hbody, h3]
    · refine makePreview_ne_empty body 500 ?_
      refine anyKeywordHit_exists_nonws raw body hkws ?_
      rw [← hP]
      exact h3

/-- Concrete instance of `preview_iff_content_match`: with
`keywords="budget"`, a filename-matched file carries an empty preview and the
content-matched file `2024-01-05 10.00.00 notes.txt` (content "budget
review") carries the non-empty clipped preview. -/
theorem preview_iff_content_match_witness :
    (budgetParams.kws = splitKeywords "budget" ∧ splitKeywords "budget" ≠ [] ∧
      hasAllowedTranscriptExt budgetTitleEntry.name = true ∧
      dateGuardFrom budgetParams.fromMs (effNameMs budgetTitleEntry) = false ∧
      dateGuardTo budgetParams.toMs (effNameMs budgetTitleEntry) = false ∧
      anyKeywordHit budgetTitleEntry.name budgetParams.kws = true ∧
      hasAllowedTranscriptExt budgetNotesEntry.name = true ∧
      dateGuardFrom budgetParams.fromMs (effNameMs budgetNotesEntry) = false ∧
      dateGuardTo budgetParams.toMs (effNameMs budgetNotesEntry) = false ∧
      anyKeywordHit budgetNotesEntry.name budgetParams.kws = false ∧
      ({ results := [], checks := 0 } : ScanState).checks < MAX_CONTENT_CHECKS ∧
      budgetNotesEntry.content = some "budget review" ∧
      anyKeywordHit "budget review" budgetParams.kws = true) ∧
    ((processFile budgetParams "./transcripts" { results := [], checks := 0 }
        budgetTitleEntry).results =
      ({ results := [], checks := 0 } : ScanState).results ++
        [mkLocalItem "./transcripts" budgetTitleEntry (effNameMs budgetTitleEntry) ""]) ∧
    ((processFile budgetParams "./transcripts" { results := [], checks := 0 }
          budgetNotesEntry).results =
        ({ results := [], checks := 0 } : ScanState).results ++
          [mkLocalItem "./transcripts" budgetNotesEntry (effNameMs budgetNotesEntry)
            (makePreview "budget review" 500)] ∧
      makePreview "budget review" 500 ≠ "" ∧
      (makePreview "budget review" 500).length ≤ 500) :=
  ⟨⟨rfl, by decide, by decide, by decide, by decide, by decide, by decide, by decide,
      by decide, by decide, by decide, rfl, by decide⟩,
    (preview_iff_content_match "budget" budgetParams "./transcripts"
      { results := [], checks := 0 } budgetTitleEntry "x"
      rfl (by decide) (by decide) (by decide) (by decide)).1 (by decide),
    (preview_iff_content_match "budget" budgetParams "./transcripts"
      { results := [], checks := 0 } budgetNotesEntry "budget review"
      rfl (by decide) (by decide) (by decide) (by decide)).2
      (by decide) (by decide) rfl (by decide)⟩

end TFA
